import Mathlib

/-!
Verification development for the debug-instrumented reverse proxy
(`src/proxy.ts`, the variant carrying `saveRequestLog`, `compressContent`,
`handleLogsApi`, `handleDebugApi`, `handleProxy`, `handleProxyTargetUpdate`
and the Deno KV mirror).  Strings are embedded as `List Char`; the Deno KV
store is embedded as an association list with per-key expiry plus a
`failing` flag modelling a store whose operations raise; fallible
operations return `Except Unit`.
-/

/-- The base64 alphabet of the regex `[A-Za-z0-9+/=]` in `compressContent`. -/
def isB64 (c : Char) : Bool :=
  c.isAlphanum || c == '+' || c == '/' || c == '='

/-- Fuel-driven decimal digit list (most significant digit first), the
embedding of JavaScript number-to-string interpolation for naturals. -/
def decCharsCore : Nat → Nat → List Char
  | 0, _ => []
  | fuel + 1, n =>
    if n < 10 then [Nat.digitChar n]
    else decCharsCore fuel (n / 10) ++ [Nat.digitChar (n % 10)]

/-- Decimal representation of `n` as characters. -/
def decChars (n : Nat) : List Char := decCharsCore (n + 1) n

/-- The replacement text `[base64内容 #idx, 长度: len字符]` built by
`compressContent` for a base64 run of length `len` (the code writes
`index+1`, so `idx` here is already the 1-based sequence number). -/
def placeholder (idx len : Nat) : List Char :=
  "[base64内容 #".toList ++ decChars idx ++ ", 长度: ".toList ++
    decChars len ++ "字符]".toList

/-- Emit a finished maximal base64 run: runs of 80 or more characters are
replaced by the placeholder (and the sequence counter advances), shorter
runs pass through verbatim. -/
def flushRun (idx : Nat) (run : List Char) : List Char × Nat :=
  if 80 ≤ run.length then (placeholder idx run.length, idx + 1) else (run, idx)

/-- Accumulator pass of `compressContent`: `run` is the base64 run currently
being read (always a block of consecutive base64 characters), `idx` the
1-based sequence number of the next replaced run.  This embeds the source's
`content.match(/[A-Za-z0-9+\x2f=]\x7b80,\x7d/g)` (whose matches are exactly the
maximal base64 runs of length ≥ 80) followed by the per-match
first-occurrence `replace` loop. -/
def compressCore (idx : Nat) (run : List Char) : List Char → List Char
  | [] => (flushRun idx run).1
  | c :: cs =>
    if isB64 c then compressCore idx (run ++ [c]) cs
    else (flushRun idx run).1 ++ c :: compressCore (flushRun idx run).2 [] cs

/-- `compressContent` from `src/proxy.ts`: collapse every run of at least
80 consecutive base64-alphabet characters into a placeholder recording the
run's length and 1-based sequence index. -/
def compressContent (content : List Char) : List Char :=
  compressCore 1 [] content

theorem length_dropWhile_le' (p : Char → Bool) (l : List Char) :
    (l.dropWhile p).length ≤ l.length := by
  induction l with
  | nil => simp [List.dropWhile]
  | cons c cs ih =>
    by_cases h : p c
    · simp only [List.dropWhile, h]
      exact Nat.le_trans ih (Nat.le_succ _)
    · simp [List.dropWhile, h]

/-- Restatement of the spec's wording for `compress`: walk the text, replace
each maximal run of ≥ 80 base64-alphabet characters with the placeholder
(carrying the sequence index and the run's original length), and pass all
other text through unchanged.  Used as the reference against which the
source-derived `compressContent` is compared. -/
def compressSpec (idx : Nat) (l : List Char) : List Char :=
  match l with
  | [] => []
  | c :: cs =>
    if h : isB64 c then
      let r := (c :: cs).takeWhile isB64
      let rest := (c :: cs).dropWhile isB64
      (if 80 ≤ r.length then placeholder idx r.length else r) ++
        compressSpec (if 80 ≤ r.length then idx + 1 else idx) rest
    else c :: compressSpec idx cs
termination_by l.length
decreasing_by
  · simp only [List.dropWhile, h]
    exact Nat.lt_succ_of_le (length_dropWhile_le' isB64 cs)
  · simp

/-- Scanner for base64 runs: `okRun n l = true` iff, starting with a
pending run of `n` base64 characters, no run of consecutive base64
characters in `l` ever reaches length 80. -/
def okRun (n : Nat) : List Char → Bool
  | [] => true
  | c :: cs =>
    if isB64 c then decide (n + 1 < 80) && okRun (n + 1) cs
    else okRun 0 cs

/-- Length of the pending base64 run after scanning `l` starting from a
pending run of length `n`. -/
def tailRun (n : Nat) : List Char → Nat
  | [] => n
  | c :: cs => tailRun (if isB64 c then n + 1 else 0) cs

theorem okRun_cons_neg (n : Nat) (c : Char) (t : List Char) (h : isB64 c = false) :
    okRun n (c :: t) = okRun 0 t := by
  simp [okRun, h]

theorem okRun_cons_pos (n : Nat) (c : Char) (t : List Char) (h : isB64 c = true) :
    okRun n (c :: t) = (decide (n + 1 < 80) && okRun (n + 1) t) := by
  simp [okRun, h]

theorem tailRun_cons_neg (n : Nat) (c : Char) (t : List Char) (h : isB64 c = false) :
    tailRun n (c :: t) = tailRun 0 t := by
  simp [tailRun, h]

theorem tailRun_cons_pos (n : Nat) (c : Char) (t : List Char) (h : isB64 c = true) :
    tailRun n (c :: t) = tailRun (n + 1) t := by
  simp [tailRun, h]

theorem okRun_append (a b : List Char) :
    ∀ n, okRun n (a ++ b) = (okRun n a && okRun (tailRun n a) b) := by
  induction a with
  | nil => intro n; simp [okRun, tailRun]
  | cons c cs ih =>
    intro n
    cases h : isB64 c
    · rw [List.cons_append, okRun_cons_neg _ _ _ h, okRun_cons_neg _ _ _ h,
        tailRun_cons_neg _ _ _ h, ih 0]
    · rw [List.cons_append, okRun_cons_pos _ _ _ h, okRun_cons_pos _ _ _ h,
        tailRun_cons_pos _ _ _ h, ih (n + 1), Bool.and_assoc]

theorem tailRun_append (a b : List Char) :
    ∀ n, tailRun n (a ++ b) = tailRun (tailRun n a) b := by
  induction a with
  | nil => intro n; simp [tailRun]
  | cons c cs ih =>
    intro n
    cases h : isB64 c
    · rw [List.cons_append, tailRun_cons_neg _ _ _ h, tailRun_cons_neg _ _ _ h, ih 0]
    · rw [List.cons_append, tailRun_cons_pos _ _ _ h, tailRun_cons_pos _ _ _ h, ih (n + 1)]

theorem okRun_allB64 (r : List Char) (hr : ∀ c ∈ r, isB64 c = true) :
    ∀ n, n + r.length < 80 → okRun n r = true := by
  induction r with
  | nil => intro n _; simp [okRun]
  | cons c cs ih =>
    intro n hn
    have hc : isB64 c = true := hr c (by simp)
    rw [okRun_cons_pos _ _ _ hc]
    simp only [Bool.and_eq_true, decide_eq_true_eq]
    refine ⟨by simp at hn; omega, ih (fun d hd => hr d (by simp [hd])) (n + 1) ?_⟩
    simp at hn ⊢; omega

theorem tailRun_allB64 (r : List Char) (hr : ∀ c ∈ r, isB64 c = true) :
    ∀ n, tailRun n r = n + r.length := by
  induction r with
  | nil => intro n; simp [tailRun]
  | cons c cs ih =>
    intro n
    have hc : isB64 c = true := hr c (by simp)
    rw [tailRun_cons_pos _ _ _ hc, ih (fun d hd => hr d (by simp [hd]))]
    simp; omega

theorem digitChar_isB64 : ∀ m, m < 10 → isB64 (Nat.digitChar m) = true := by decide

theorem decCharsCore_allB64 :
    ∀ fuel n c, c ∈ decCharsCore fuel n → isB64 c = true := by
  intro fuel
  induction fuel with
  | zero => intro n c hc; simp [decCharsCore] at hc
  | succ fuel ih =>
    intro n c hc
    by_cases h : n < 10
    · simp [decCharsCore, h] at hc
      subst hc; exact digitChar_isB64 n h
    · simp only [decCharsCore, h, if_false, List.mem_append, List.mem_singleton] at hc
      rcases hc with hc | hc
      · exact ih _ c hc
      · subst hc; exact digitChar_isB64 _ (Nat.mod_lt n (by omega))

theorem decChars_allB64 (n : Nat) : ∀ c ∈ decChars n, isB64 c = true :=
  fun c hc => decCharsCore_allB64 (n + 1) n c hc

theorem decCharsCore_length_le :
    ∀ fuel n k, n < 10 ^ k → 1 ≤ k → (decCharsCore fuel n).length ≤ k := by
  intro fuel
  induction fuel with
  | zero => intro n k _ _; simp [decCharsCore]
  | succ fuel ih =>
    intro n k hn hk
    by_cases h : n < 10
    · simp [decCharsCore, h]; omega
    · match k, hk with
      | 1, _ => omega
      | k + 2, _ =>
        have hdiv : n / 10 < 10 ^ (k + 1) := by
          rw [Nat.div_lt_iff_lt_mul (by omega)]
          calc n < 10 ^ (k + 2) := hn
            _ = 10 ^ (k + 1) * 10 := by rw [pow_succ]
        simp only [decCharsCore, h, if_false, List.length_append, List.length_singleton]
        have := ih (n / 10) (k + 1) hdiv (by omega)
        omega

theorem decChars_length_le (n k : Nat) (hn : n < 10 ^ k) (hk : 1 ≤ k) :
    (decChars n).length ≤ k :=
  decCharsCore_length_le (n + 1) n k hn hk

theorem placeholder_length (idx len : Nat) :
    (placeholder idx len).length =
      20 + (decChars idx).length + (decChars len).length := by
  have h1 : ("[base64内容 #".toList).length = 11 := rfl
  have h2 : (", 长度: ".toList).length = 6 := rfl
  have h3 : ("字符]".toList).length = 3 := rfl
  simp only [placeholder, List.length_append, h1, h2, h3]
  omega

theorem okRun_placeholder (idx len : Nat)
    (hi : (decChars idx).length < 80) (hl : (decChars len).length < 80) :
    okRun 0 (placeholder idx len) = true := by
  have e : placeholder idx len =
      "[base64内容 #".toList ++ (decChars idx ++ (", 长度: ".toList ++
        (decChars len ++ "字符]".toList))) := by
    simp [placeholder, List.append_assoc]
  have s2 : (", 长度: ".toList) = ',' :: " 长度: ".toList := rfl
  have s3 : ("字符]".toList) = '字' :: "符]".toList := rfl
  rw [e, okRun_append]
  rw [show okRun 0 ("[base64内容 #".toList) = true from by decide,
    show tailRun 0 ("[base64内容 #".toList) = 0 from by decide, Bool.true_and,
    okRun_append,
    okRun_allB64 _ (decChars_allB64 idx) 0 (by omega), Bool.true_and,
    tailRun_allB64 _ (decChars_allB64 idx) 0]
  rw [s2, List.cons_append, okRun_cons_neg _ _ _ (by decide), okRun_append,
    show okRun 0 (" 长度: ".toList) = true from by decide, Bool.true_and,
    show tailRun 0 (" 长度: ".toList) = 0 from by decide,
    okRun_append,
    okRun_allB64 _ (decChars_allB64 len) 0 (by omega), Bool.true_and,
    tailRun_allB64 _ (decChars_allB64 len) 0]
  rw [s3, okRun_cons_neg _ _ _ (by decide)]
  decide

theorem compressCore_nil (idx : Nat) (run : List Char) :
    compressCore idx run [] = (flushRun idx run).1 := rfl

theorem compressCore_cons_pos (idx : Nat) (run : List Char) (c : Char) (cs : List Char)
    (h : isB64 c = true) :
    compressCore idx run (c :: cs) = compressCore idx (run ++ [c]) cs := by
  simp [compressCore, h]

theorem compressCore_cons_neg (idx : Nat) (run : List Char) (c : Char) (cs : List Char)
    (h : isB64 c = false) :
    compressCore idx run (c :: cs) =
      (flushRun idx run).1 ++ c :: compressCore (flushRun idx run).2 [] cs := by
  simp [compressCore, h]

theorem flushRun_fst (idx : Nat) (run : List Char) :
    (flushRun idx run).1 =
      if 80 ≤ run.length then placeholder idx run.length else run := by
  by_cases h : 80 ≤ run.length <;> simp [flushRun, h]

theorem flushRun_snd (idx : Nat) (run : List Char) :
    (flushRun idx run).2 = if 80 ≤ run.length then idx + 1 else idx := by
  by_cases h : 80 ≤ run.length <;> simp [flushRun, h]

theorem pow16_lit : (10 : Nat) ^ 16 = 10000000000000000 := by norm_num

theorem pow17_lit : (10 : Nat) ^ 17 = 100000000000000000 := by norm_num

theorem pow18_lit : (10 : Nat) ^ 18 = 1000000000000000000 := by norm_num

theorem flushRun_fst_length (idx : Nat) (run : List Char)
    (hb : 80 * idx + run.length ≤ 10 ^ 17) :
    (flushRun idx run).1.length ≤ run.length := by
  rw [flushRun_fst]
  by_cases h : 80 ≤ run.length
  · rw [if_pos h, placeholder_length]
    rw [pow17_lit] at hb
    have d1 := decChars_length_le idx 16 (by rw [pow16_lit]; omega) (by omega)
    have d2 := decChars_length_le run.length 18 (by rw [pow18_lit]; omega) (by omega)
    omega
  · rw [if_neg h]

theorem okRun_flushRun (idx : Nat) (run : List Char)
    (hall : ∀ c ∈ run, isB64 c = true)
    (hb : 80 * idx + run.length ≤ 10 ^ 17) :
    okRun 0 (flushRun idx run).1 = true := by
  rw [flushRun_fst]
  rw [pow17_lit] at hb
  by_cases h : 80 ≤ run.length
  · rw [if_pos h]
    apply okRun_placeholder
    · have := decChars_length_le idx 16 (by rw [pow16_lit]; omega) (by omega)
      omega
    · have := decChars_length_le run.length 18 (by rw [pow18_lit]; omega) (by omega)
      omega
  · rw [if_neg h]
    exact okRun_allB64 run hall 0 (by omega)

theorem compressCore_length :
    ∀ (l : List Char) (idx : Nat) (run : List Char),
      80 * idx + run.length + l.length ≤ 10 ^ 17 →
      (compressCore idx run l).length ≤ run.length + l.length := by
  intro l
  induction l with
  | nil =>
    intro idx run hb
    rw [compressCore_nil]
    simpa using flushRun_fst_length idx run (by omega)
  | cons c cs ih =>
    intro idx run hb
    cases hc : isB64 c
    · rw [compressCore_cons_neg _ _ _ _ hc]
      have h1 : (flushRun idx run).1.length ≤ run.length :=
        flushRun_fst_length _ _ (by rw [pow17_lit] at hb ⊢; simp at hb; omega)
      have h2 : (compressCore (flushRun idx run).2 [] cs).length ≤
          ([] : List Char).length + cs.length := by
        apply ih
        rw [flushRun_snd]
        by_cases h : 80 ≤ run.length
        · rw [if_pos h]; rw [pow17_lit] at hb ⊢; simp at hb; simp; omega
        · rw [if_neg h]; rw [pow17_lit] at hb ⊢; simp at hb; simp; omega
      simp at h2 ⊢
      omega
    · rw [compressCore_cons_pos _ _ _ _ hc]
      have h1 := ih idx (run ++ [c])
        (by rw [pow17_lit] at hb ⊢; simp at hb ⊢; omega)
      simp at h1 ⊢
      omega

theorem compressCore_okRun :
    ∀ (l : List Char) (idx : Nat) (run : List Char),
      (∀ c ∈ run, isB64 c = true) →
      80 * idx + run.length + l.length ≤ 10 ^ 17 →
      okRun 0 (compressCore idx run l) = true := by
  intro l
  induction l with
  | nil =>
    intro idx run hall hb
    rw [compressCore_nil]
    exact okRun_flushRun idx run hall (by omega)
  | cons c cs ih =>
    intro idx run hall hb
    cases hc : isB64 c
    · rw [compressCore_cons_neg _ _ _ _ hc, okRun_append,
        okRun_flushRun idx run hall (by rw [pow17_lit] at hb ⊢; simp at hb; omega),
        Bool.true_and, okRun_cons_neg _ _ _ hc]
      apply ih (flushRun idx run).2 [] (by simp)
      rw [flushRun_snd]
      by_cases h : 80 ≤ run.length
      · rw [if_pos h]; rw [pow17_lit] at hb ⊢; simp at hb; simp; omega
      · rw [if_neg h]; rw [pow17_lit] at hb ⊢; simp at hb; simp; omega
    · rw [compressCore_cons_pos _ _ _ _ hc]
      apply ih idx (run ++ [c])
      · intro d hd
        rcases List.mem_append.mp hd with h | h
        · exact hall d h
        · simp at h; subst h; exact hc
      · rw [pow17_lit] at hb ⊢; simp at hb ⊢; omega

theorem compressSpec_nil (idx : Nat) : compressSpec idx [] = [] := by
  rw [compressSpec]

theorem compressSpec_cons_pos (idx : Nat) (c : Char) (cs : List Char)
    (h : isB64 c = true) :
    compressSpec idx (c :: cs) =
      (if 80 ≤ ((c :: cs).takeWhile isB64).length
        then placeholder idx ((c :: cs).takeWhile isB64).length
        else (c :: cs).takeWhile isB64) ++
      compressSpec (if 80 ≤ ((c :: cs).takeWhile isB64).length then idx + 1 else idx)
        ((c :: cs).dropWhile isB64) := by
  rw [compressSpec]
  simp [h]

theorem compressSpec_cons_neg (idx : Nat) (c : Char) (cs : List Char)
    (h : isB64 c = false) :
    compressSpec idx (c :: cs) = c :: compressSpec idx cs := by
  rw [compressSpec]
  simp [h]

theorem compressCore_append_run :
    ∀ (r : List Char) (idx : Nat) (run l : List Char),
      (∀ c ∈ r, isB64 c = true) →
      compressCore idx run (r ++ l) = compressCore idx (run ++ r) l := by
  intro r
  induction r with
  | nil => intro idx run l _; simp
  | cons c cs ih =>
    intro idx run l hr
    have hc : isB64 c = true := hr c (by simp)
    rw [List.cons_append, compressCore_cons_pos _ _ _ _ hc,
      ih idx (run ++ [c]) l (fun d hd => hr d (by simp [hd]))]
    simp

theorem dropWhile_head_neg :
    ∀ (l : List Char) (d : Char) (ds : List Char),
      l.dropWhile isB64 = d :: ds → isB64 d = false := by
  intro l
  induction l with
  | nil => intro d ds h; simp [List.dropWhile] at h
  | cons c cs ih =>
    intro d ds h
    cases hc : isB64 c
    · rw [List.dropWhile_cons] at h
      simp [hc] at h
      rw [← h.1]
      exact hc
    · rw [List.dropWhile_cons] at h
      simp [hc] at h
      exact ih d ds h

theorem compressCore_eq_spec :
    ∀ (n : Nat) (l : List Char), l.length ≤ n →
      ∀ idx, compressCore idx [] l = compressSpec idx l := by
  intro n
  induction n with
  | zero =>
    intro l hl idx
    have hnil : l = [] := List.eq_nil_of_length_eq_zero (Nat.le_zero.mp hl)
    subst hnil
    rw [compressSpec_nil, compressCore_nil, flushRun_fst]
    simp
  | succ n ih =>
    intro l hl idx
    cases l with
    | nil =>
      rw [compressSpec_nil, compressCore_nil, flushRun_fst]
      simp
    | cons c cs =>
      cases hc : isB64 c
      · rw [compressCore_cons_neg _ _ _ _ hc, compressSpec_cons_neg _ _ _ hc]
        have hfr1 : (flushRun idx ([] : List Char)).1 = [] := by simp [flushRun]
        have hfr2 : (flushRun idx ([] : List Char)).2 = idx := by simp [flushRun]
        rw [hfr1, hfr2, ih cs (by simpa using hl) idx]
        simp
      · have hallr : ∀ d ∈ (c :: cs).takeWhile isB64, isB64 d = true :=
          fun d hd => List.mem_takeWhile_imp hd
        have hsplit := List.takeWhile_append_dropWhile (p := isB64) (l := c :: cs)
        have h1 : compressCore idx [] (c :: cs) =
            compressCore idx ((c :: cs).takeWhile isB64) ((c :: cs).dropWhile isB64) := by
          conv_lhs => rw [← hsplit]
          rw [compressCore_append_run _ idx [] _ hallr]
          simp
        have hlen : ((c :: cs).takeWhile isB64).length +
            ((c :: cs).dropWhile isB64).length = (c :: cs).length := by
          have h2 := congrArg List.length hsplit
          rw [List.length_append] at h2
          exact h2
        have hrpos : 1 ≤ ((c :: cs).takeWhile isB64).length := by
          rw [List.takeWhile_cons, if_pos (by simp [hc])]
          simp
        rw [h1, compressSpec_cons_pos _ _ _ hc]
        have hfst : (flushRun idx ((c :: cs).takeWhile isB64)).1 =
            (if 80 ≤ ((c :: cs).takeWhile isB64).length
              then placeholder idx ((c :: cs).takeWhile isB64).length
              else (c :: cs).takeWhile isB64) := flushRun_fst _ _
        have hsnd : (flushRun idx ((c :: cs).takeWhile isB64)).2 =
            (if 80 ≤ ((c :: cs).takeWhile isB64).length then idx + 1 else idx) :=
          flushRun_snd _ _
        cases hre : (c :: cs).dropWhile isB64 with
        | nil =>
          rw [compressCore_nil, hfst, compressSpec_nil]
          simp
        | cons d ds =>
          have hd : isB64 d = false := dropWhile_head_neg (c :: cs) d ds hre
          rw [compressCore_cons_neg _ _ _ _ hd, compressSpec_cons_neg _ _ _ hd,
            hfst, hsnd]
          have hds : ds.length ≤ n := by
            rw [hre] at hlen
            simp only [List.length_cons] at hlen hl
            omega
          rw [ih ds hds]

theorem okRun_bound_of_start (s : List Char) :
    ∀ (t : List Char) (n : Nat), s <+: t → okRun n t = true →
      (∀ c ∈ s, isB64 c = true) → s = [] ∨ n + s.length < 80 := by
  induction s with
  | nil => intro t n _ _ _; exact Or.inl rfl
  | cons c s' ih =>
    intro t n hpre hok hall
    cases t with
    | nil =>
      exact absurd (List.prefix_nil.mp hpre) (by simp)
    | cons b t' =>
      obtain ⟨hcb, hpre'⟩ := List.cons_prefix_cons.mp hpre
      subst hcb
      have hc : isB64 c = true := hall c (by simp)
      rw [okRun_cons_pos _ _ _ hc] at hok
      simp only [Bool.and_eq_true, decide_eq_true_eq] at hok
      rcases ih t' (n + 1) hpre' hok.2 (fun d hd => hall d (by simp [hd])) with h | h
      · subst h; simp; omega
      · right; simp at h ⊢; omega

theorem okRun_no_long_infix :
    ∀ (t : List Char) (n : Nat), okRun n t = true →
      ∀ s, s <:+: t → (∀ c ∈ s, isB64 c = true) → s.length < 80 := by
  intro t
  induction t with
  | nil =>
    intro n _ s hs _
    rw [List.infix_nil.mp hs]
    simp
  | cons b t' ih =>
    intro n hok s hs hall
    rcases List.infix_cons_iff.mp hs with hpre | hinf
    · rcases okRun_bound_of_start s (b :: t') n hpre hok hall with h | h
      · subst h; simp
      · omega
    · cases hb : isB64 b
      · rw [okRun_cons_neg _ _ _ hb] at hok
        exact ih 0 hok s hinf hall
      · rw [okRun_cons_pos _ _ _ hb] at hok
        simp only [Bool.and_eq_true, decide_eq_true_eq] at hok
        exact ih (n + 1) hok.2 s hinf hall

theorem pow15_lit : (10 : Nat) ^ 15 = 1000000000000000 := by norm_num

/-- Claim C2: `compressContent` replaces every run of at least 80 consecutive
base64-alphabet characters with a placeholder carrying the run's original
length and its sequence index and leaves non-matching text unchanged (it
equals the spec-worded `compressSpec`); the result contains no remaining
base64-alphabet run of 80 or more characters; and the result's character
count never exceeds the input's.  The length hypothesis comfortably covers
every JavaScript string (whose length is below `2^53`). -/
theorem compressContent_correct (content : List Char)
    (h : content.length ≤ 10 ^ 15) :
    compressContent content = compressSpec 1 content ∧
    (∀ s, s <:+: compressContent content →
      (∀ c ∈ s, isB64 c = true) → s.length < 80) ∧
    (compressContent content).length ≤ content.length := by
  have hb : 80 * 1 + ([] : List Char).length + content.length ≤ 10 ^ 17 := by
    rw [pow17_lit]
    rw [pow15_lit] at h
    simp
    omega
  refine ⟨compressCore_eq_spec content.length content Nat.le.refl 1, ?_, ?_⟩
  · intro s hs hall
    exact okRun_no_long_infix _ 0
      (compressCore_okRun content 1 [] (by simp) hb) s hs hall
  · have h2 := compressCore_length content 1 [] hb
    simpa using h2

/-- A sample text containing one base64 run of 100 characters. -/
def c2Sample : List Char :=
  "data: ".toList ++ List.replicate 100 'A' ++ " tail!".toList

theorem compressContent_correct_witness :
    c2Sample.length ≤ 10 ^ 15 ∧
    (compressContent c2Sample = compressSpec 1 c2Sample ∧
      (∀ s, s <:+: compressContent c2Sample →
        (∀ c ∈ s, isB64 c = true) → s.length < 80) ∧
      (compressContent c2Sample).length ≤ c2Sample.length) :=
  ⟨by decide, compressContent_correct c2Sample (by decide)⟩

/-- Keys of the Deno KV store used by the proxy: the id-list key
`["logIds"]`, the per-entry keys `["logs", id]`, and the state keys
`["debugState"]` and `["proxyConfig"]`. -/
inductive KVKey where
  | logIds
  | logs (id : Nat)
  | debugState
  | proxyConfig
deriving DecidableEq

/-- The `RequestLog` interface of `src/proxy.ts`.  Entry ids in the source
are `Date.now()-random` strings; the spec's data model asserts they are
monotonically time-ordered within a process, so they are embedded as the
values of a strictly increasing per-process counter. -/
structure RequestLog where
  id : Nat
  timestamp : Nat
  method : String
  url : String
  path : String
  headers : List (String × String)
  body : List Char
  responseBody : Option (List Char)
  responseStatus : Option Nat
  clientIP : String
deriving DecidableEq

/-- Values stored in the KV store. -/
inductive KVValue where
  | ids (l : List Nat)
  | log (e : RequestLog)
  | debug (isDebugMode : Bool) (startTime : Nat)
  | config (targetUrl : String) (targetHistory : List String)
deriving DecidableEq

/-- The Deno KV store: an association list of key, value and optional
`expireAt` timestamp, plus a `failing` flag modelling a store whose
operations raise (the reachability failures the source catches). -/
structure KVStore where
  entries : List (KVKey × KVValue × Option Nat)
  failing : Bool
deriving DecidableEq

/-- Raw lookup of value and expiry, ignoring reachability. -/
def KVStore.lookup (s : KVStore) (k : KVKey) : Option (KVValue × Option Nat) :=
  (s.entries.find? (fun e => decide (e.1 = k))).map (fun e => e.2)

/-- `kv.get(key)`: raises when the store is failing, otherwise returns the
stored value if present. -/
def KVStore.get (s : KVStore) (k : KVKey) : Except Unit (Option KVValue) :=
  if s.failing then .error () else .ok ((s.lookup k).map (fun v => v.1))

/-- `kv.set(key, value, { expireAt })`. -/
def KVStore.set (s : KVStore) (k : KVKey) (v : KVValue) (expireAt : Option Nat) :
    Except Unit KVStore :=
  if s.failing then .error ()
  else .ok { s with
    entries := (k, v, expireAt) :: s.entries.filter (fun e => decide (e.1 ≠ k)) }

/-- `kv.delete(key)`. -/
def KVStore.del (s : KVStore) (k : KVKey) : Except Unit KVStore :=
  if s.failing then .error ()
  else .ok { s with entries := s.entries.filter (fun e => decide (e.1 ≠ k)) }

/-- The module-level mutable state of `src/proxy.ts` (`state` plus the `kv`
handle; `kv = none` embeds a failed `Deno.openKv()` or disabled KV storage).
`nextId` is the monotone source of entry ids. -/
structure ProxyState where
  isDebugMode : Bool
  logs : List RequestLog
  startTime : Nat
  targetUrl : String
  targetHistory : List String
  kv : Option KVStore
  nextId : Nat
deriving DecidableEq

/-- `MAX_LOGS` from `src/proxy.ts`. -/
def MAX_LOGS : Nat := 100

/-- `TARGET_URL`'s default from `src/proxy.ts`. -/
def TARGET_URL : String := "https://generativelanguage.googleapis.com"

/-- The log-entry expiry used in `saveRequestLog`:
`10 * 60 * 1000` milliseconds (the source's `expirationMs`, commented
"10分钟", i.e. ten minutes). -/
def LOG_EXPIRATION_MS : Nat := 10 * 60 * 1000

/-- The debug-state expiry used in the toggle handler: `12 * 60 * 60 * 1000`
milliseconds (twelve hours). -/
def DEBUG_STATE_EXPIRATION_MS : Nat := 12 * 60 * 60 * 1000

/-- The data of an inbound request that the capture path reads. -/
structure ReqInfo where
  method : String
  url : String
  path : String
  search : String
  headers : List (String × String)
deriving DecidableEq

/-- The updated id list computed by `saveRequestLog`: prepend the fresh id
to the stored list (unless already present) and cap at `MAX_LOGS`. -/
def newIdsFor (existing : Option KVValue) (requestId : Nat) : List Nat :=
  match existing with
  | some (.ids l) =>
    if l.contains requestId then l else (requestId :: l).take MAX_LOGS
  | _ => [requestId]

/-- The KV section of `saveRequestLog`: read the current id list, compute
the updated list, then write the entry and the id list, both with the same
`expireAt`. -/
def kvSaveLog (kv : KVStore) (requestId : Nat) (entry : RequestLog) (now : Nat) :
    Except Unit KVStore :=
  let expireAt := now + LOG_EXPIRATION_MS
  match kv.get .logIds with
  | .error e => .error e
  | .ok existing =>
    let newLogIds := newIdsFor existing requestId
    match kv.set (.logs requestId) (.log entry) (some expireAt) with
    | .error e => .error e
    | .ok kv1 =>
      match kv1.set .logIds (.ids newLogIds) (some expireAt) with
      | .error e => .error e
      | .ok kv2 => .ok kv2

/-- The `RequestLog` entry built by `saveRequestLog` (bodies compressed,
an empty response body becoming `undefined`, client IP from the
`x-forwarded-for` header). -/
def mkEntry (st : ProxyState) (req : ReqInfo) (requestBody : List Char)
    (responseBody : Option (List Char)) (responseStatus : Option Nat)
    (now : Nat) : RequestLog :=
  { id := st.nextId
    timestamp := now
    method := req.method
    url := req.url
    path := req.path
    headers := req.headers
    body := compressContent requestBody
    responseBody :=
      match responseBody with
      | some b => if b.isEmpty then none else some (compressContent b)
      | none => none
    responseStatus := responseStatus
    clientIP :=
      match req.headers.lookup "x-forwarded-for" with
      | some ip => ip
      | none => "unknown" }


/-- `saveRequestLog` from `src/proxy.ts`: no-op returning `null` when debug
mode is off; otherwise build the entry (bodies compressed, an empty response
body becoming `undefined`), push it at the head of the in-memory list,
truncate the list to `MAX_LOGS`, and best-effort mirror the entry to KV (a
KV failure is caught and leaves memory authoritative).  Returns the new
state and the assigned id. -/
def saveRequestLog (st : ProxyState) (req : ReqInfo) (requestBody : List Char)
    (responseBody : Option (List Char)) (responseStatus : Option Nat)
    (now : Nat) : ProxyState × Option Nat :=
  if !st.isDebugMode then (st, none)
  else
    let requestId := st.nextId
    let entry := mkEntry st req requestBody responseBody responseStatus now
    let logs1 := entry :: st.logs
    let logs2 := if MAX_LOGS < logs1.length then logs1.take MAX_LOGS else logs1
    let st1 := { st with logs := logs2, nextId := st.nextId + 1 }
    let st2 :=
      match st1.kv with
      | none => st1
      | some kv =>
        match kvSaveLog kv requestId entry now with
        | .error _ => st1
        | .ok kv' => { st1 with kv := some kv' }
    (st2, some requestId)

/-- The KV read loop of `getLogsFromKV`: read the id list; when absent or
empty return `[]`; otherwise collect the stored entry for each id, skipping
ids whose entry is missing. -/
def kvGetLogs (kv : KVStore) : Except Unit (List RequestLog) :=
  match kv.get .logIds with
  | .error e => .error e
  | .ok ids =>
    match ids with
    | some (.ids l) =>
      if l.isEmpty then .ok []
      else
        l.foldlM (fun acc id =>
          match kv.get (.logs id) with
          | .error e => .error e
          | .ok (some (.log e)) => .ok (acc ++ [e])
          | .ok _ => .ok acc) []
    | _ => .ok []

/-- `getLogsFromKV` from `src/proxy.ts`: `[]` when KV is not configured, the
collected KV view otherwise, with any KV failure caught and turned into `[]`. -/
def getLogsFromKV (st : ProxyState) : List RequestLog :=
  match st.kv with
  | none => []
  | some kv =>
    match kvGetLogs kv with
    | .error _ => []
    | .ok logs => logs

/-- GET `/api/logs` (`handleLogsApi`): the KV view when KV is configured and
debug mode is on, the in-memory list otherwise. -/
def handleLogsApiGet (st : ProxyState) : List RequestLog :=
  match st.kv with
  | some _ => if st.isDebugMode then getLogsFromKV st else st.logs
  | none => st.logs

/-- The KV section of `clearAllRequestLogs`: delete every entry named in the
id list, then delete the id list itself. -/
def kvClearLogs (kv : KVStore) : Except Unit KVStore :=
  match kv.get .logIds with
  | .error e => .error e
  | .ok ids =>
    match
      (match ids with
        | some (.ids l) => l.foldlM (fun acc id => acc.del (.logs id)) kv
        | _ => Except.ok kv : Except Unit KVStore) with
    | .error e => .error e
    | .ok kv1 => kv1.del .logIds

/-- `clearAllRequestLogs` from `src/proxy.ts`: the in-memory list is emptied
first; the KV deletions are attempted afterwards and any KV failure is
caught, yielding `false` (the memory stays cleared). -/
def clearAllRequestLogs (st : ProxyState) : ProxyState × Bool :=
  let st1 := { st with logs := [] }
  match st1.kv with
  | none => (st1, true)
  | some kv =>
    match kvClearLogs kv with
    | .error _ => (st1, false)
    | .ok kv' => ({ st1 with kv := some kv' }, true)

/-- DELETE `/api/logs` (`handleLogsApi`): clear, then answer
`{success}` with status 200 on success and 500 on failure. -/
def handleLogsApiDelete (st : ProxyState) : ProxyState × Nat × Bool :=
  let r := clearAllRequestLogs st
  (r.1, if r.2 then 200 else 500, r.2)

/-- POST `/api/debug/toggle` (`handleDebugApi`): flip the flag; when turning
on, record `startTime = now` and mirror `{isDebugMode: true, startTime}` to
KV with a 12-hour expiry; when turning off, reset `startTime` to 0 and
mirror `{isDebugMode: false, startTime: 0}` without expiry.  The KV write is
not wrapped in a try/catch, so a KV failure propagates (`none`, surfaced as
a 500 by the outer handler). -/
def handleDebugToggle (st : ProxyState) (now : Nat) : Option ProxyState :=
  let st1 := { st with isDebugMode := !st.isDebugMode }
  if st1.isDebugMode then
    let st2 := { st1 with startTime := now }
    match st2.kv with
    | none => some st2
    | some kv =>
      match kv.set .debugState (.debug true now)
          (some (now + DEBUG_STATE_EXPIRATION_MS)) with
      | .error _ => none
      | .ok kv' => some { st2 with kv := some kv' }
  else
    let st2 := { st1 with startTime := 0 }
    match st2.kv with
    | none => some st2
    | some kv =>
      match kv.set .debugState (.debug false 0) none with
      | .error _ => none
      | .ok kv' => some { st2 with kv := some kv' }

/-- Characters allowed in a URL scheme. -/
def isSchemeChar (c : Char) : Bool :=
  c.isAlpha || c.isDigit || c == '+' || c == '-' || c == '.'

/-- Simplified model of WHATWG `new URL(s)` validation: the string parses as
an absolute URL iff it starts with a nonempty scheme whose first character
is a letter, followed by `:`.  This is what decides between the handler's
success path and its catch clause; normalization performed by `toString()`
is abstracted away (the stored target is the given string). -/
def isAbsoluteUrl (s : String) : Bool :=
  let l := s.toList
  let scheme := l.takeWhile isSchemeChar
  match scheme with
  | c :: _ =>
    match l.drop scheme.length with
    | ':' :: _ => c.isAlpha
    | _ => false
  | [] => false

/-- The JSON body of a POST to `/api/proxy/target`.  The handler
destructures the `url` field; `targetUrl` is carried to express claims about
bodies that use that name instead. -/
structure TargetUpdateBody where
  url : Option String
  targetUrl : Option String
deriving DecidableEq

/-- `handleProxyTargetUpdate` from `src/proxy.ts`.  `body = none` embeds a
request whose JSON fails to parse.  Returns the new state, the HTTP status
and the `success` flag.  Everything sits in one try/catch: an invalid (or
absent) `url` field throws inside `new URL(...)` before any mutation, while
a KV failure throws after the in-memory mutation, also answering 400. -/
def handleProxyTargetUpdate (st : ProxyState) (method : String)
    (body : Option TargetUpdateBody) : ProxyState × Nat × Bool :=
  if method ≠ "POST" then (st, 405, false)
  else
    match body with
    | none => (st, 400, false)
    | some b =>
      match b.url with
      | none => (st, 400, false)
      | some u =>
        if isAbsoluteUrl u then
          let hist1 := if st.targetHistory.contains u then st.targetHistory
            else u :: st.targetHistory
          let hist2 := if 10 < hist1.length then hist1.take 10 else hist1
          let st1 := { st with targetUrl := u, targetHistory := hist2 }
          match st1.kv with
          | none => (st1, 200, true)
          | some kv =>
            match kv.set .proxyConfig (.config u hist2) none with
            | .error _ => (st1, 400, false)
            | .ok kv' => ({ st1 with kv := some kv' }, 200, true)
        else (st, 400, false)

/-- Model of `new URL(pathAndSearch, base).toString()` for a root-relative
path against the origin-only `TARGET_URL` base. -/
def resolveUrl (base : String) (pathAndSearch : String) : String :=
  base ++ pathAndSearch

/-- The upstream URL computed by `handleProxy`:
`new URL(url.pathname + url.search, TARGET_URL)` — note the constant
`TARGET_URL`, not `state.targetUrl`. -/
def proxyUpstreamUrl (st : ProxyState) (req : ReqInfo) : String :=
  resolveUrl TARGET_URL (req.path ++ req.search)

/-- The capture part of `handleProxy`: the request body is read only in
debug mode for non-GET/HEAD methods (empty on a read failure), the response
body is read only in debug mode (a read failure substitutes the fixed
placeholder text), and `saveRequestLog` runs only when the captured request
body is non-empty.  `readReqOk`/`readRespOk` embed the outcome of the two
`text()` calls. -/
def handleProxyCapture (st : ProxyState) (req : ReqInfo) (reqBody : List Char)
    (readReqOk : Bool) (respBody : List Char) (readRespOk : Bool)
    (respStatus : Nat) (now : Nat) : ProxyState :=
  let requestBody :=
    if st.isDebugMode && req.method ≠ "GET" && req.method ≠ "HEAD" && readReqOk
    then reqBody else []
  if st.isDebugMode then
    if readRespOk then
      if requestBody.isEmpty then st
      else (saveRequestLog st req requestBody (some respBody) (some respStatus) now).1
    else
      if requestBody.isEmpty then st
      else (saveRequestLog st req requestBody (some "无法读取响应内容".toList)
        (some respStatus) now).1
  else st

/-- The state at process start with KV unavailable: debug off, empty logs
and history, default target. -/
def initState : ProxyState :=
  { isDebugMode := false, logs := [], startTime := 0, targetUrl := TARGET_URL,
    targetHistory := [], kv := none, nextId := 0 }

/-- `initState` with debug mode enabled. -/
def debugOnInit : ProxyState := { initState with isDebugMode := true }

/-- A fixed sample request used for iterated saves. -/
def sampleReq : ReqInfo :=
  { method := "POST", url := "https://proxy.example/v1beta/models",
    path := "/v1beta/models", search := "",
    headers := [("content-type", "application/json")] }

/-- Save `n` entries in sequence (each save stamped with its index). -/
def saveMany (st : ProxyState) : Nat → ProxyState
  | 0 => st
  | n + 1 =>
    (saveRequestLog (saveMany st n) sampleReq "\x7b\"a\":1\x7d".toList
      (some "ok".toList) (some 200) n).1

theorem saveRequestLog_off (st : ProxyState) (req : ReqInfo) (b : List Char)
    (rb : Option (List Char)) (rs : Option Nat) (now : Nat)
    (hd : st.isDebugMode = false) :
    saveRequestLog st req b rb rs now = (st, none) := by
  simp [saveRequestLog, hd]

theorem saveRequestLog_logs (st : ProxyState) (req : ReqInfo) (b : List Char)
    (rb : Option (List Char)) (rs : Option Nat) (now : Nat)
    (hd : st.isDebugMode = true) :
    (saveRequestLog st req b rb rs now).1.logs =
      (if MAX_LOGS < (mkEntry st req b rb rs now :: st.logs).length
        then (mkEntry st req b rb rs now :: st.logs).take MAX_LOGS
        else mkEntry st req b rb rs now :: st.logs) := by
  simp only [saveRequestLog, hd, Bool.not_true, Bool.false_eq_true, if_false]
  cases hkv : st.kv with
  | none => simp
  | some kv =>
    cases hres : kvSaveLog kv st.nextId (mkEntry st req b rb rs now) now with
    | error e => simp [hres]
    | ok kv' => simp [hres]

theorem saveRequestLog_isDebugMode (st : ProxyState) (req : ReqInfo)
    (b : List Char) (rb : Option (List Char)) (rs : Option Nat) (now : Nat) :
    (saveRequestLog st req b rb rs now).1.isDebugMode = st.isDebugMode := by
  cases hd : st.isDebugMode
  · rw [saveRequestLog_off st req b rb rs now hd]
    exact hd
  · simp only [saveRequestLog, hd, Bool.not_true, Bool.false_eq_true, if_false]
    cases hkv : st.kv with
    | none => simp
    | some kv =>
      cases hres : kvSaveLog kv st.nextId (mkEntry st req b rb rs now) now with
      | error e => simp [hres]
      | ok kv' => simp [hres]

theorem saveRequestLog_nextId (st : ProxyState) (req : ReqInfo) (b : List Char)
    (rb : Option (List Char)) (rs : Option Nat) (now : Nat)
    (hd : st.isDebugMode = true) :
    (saveRequestLog st req b rb rs now).1.nextId = st.nextId + 1 := by
  simp only [saveRequestLog, hd, Bool.not_true, Bool.false_eq_true, if_false]
  cases hkv : st.kv with
  | none => simp
  | some kv =>
    cases hres : kvSaveLog kv st.nextId (mkEntry st req b rb rs now) now with
    | error e => simp [hres]
    | ok kv' => simp [hres]

theorem mkEntry_id (st : ProxyState) (req : ReqInfo) (b : List Char)
    (rb : Option (List Char)) (rs : Option Nat) (now : Nat) :
    (mkEntry st req b rb rs now).id = st.nextId := rfl

theorem saveMany_isDebugMode : ∀ n, (saveMany debugOnInit n).isDebugMode = true := by
  intro n
  induction n with
  | zero => rfl
  | succ n ih => rw [saveMany, saveRequestLog_isDebugMode, ih]

theorem saveMany_nextId : ∀ n, (saveMany debugOnInit n).nextId = n := by
  intro n
  induction n with
  | zero => rfl
  | succ n ih =>
    rw [saveMany, saveRequestLog_nextId _ _ _ _ _ _ (saveMany_isDebugMode n), ih]

theorem cap_eq_take (e : RequestLog) (L : List RequestLog) :
    (if MAX_LOGS < (e :: L).length then (e :: L).take MAX_LOGS else e :: L) =
      (e :: L).take MAX_LOGS := by
  by_cases h : MAX_LOGS < (e :: L).length
  · rw [if_pos h]
  · rw [if_neg h, List.take_of_length_le (by omega)]

theorem take_cons_take (a : Nat) (X : List Nat) :
    List.take MAX_LOGS (a :: List.take MAX_LOGS X) =
      List.take MAX_LOGS (a :: X) := by
  have h100 : MAX_LOGS = 99 + 1 := by decide
  rw [h100, List.take_succ_cons, List.take_succ_cons, List.take_take]
  norm_num

/-- Claim C1: the in-memory log store never exceeds `MAX_LOGS` entries under
any `saveRequestLog` call; eviction is strict FIFO applied immediately on
insert — after `n` saves from a fresh debug-enabled state the surviving
entries are exactly the `min n MAX_LOGS` newest ones, ids in descending
order; in particular `MAX_LOGS + 5` saves leave exactly `MAX_LOGS` entries. -/
theorem logStore_bounded_fifo :
    (∀ (st : ProxyState) (req : ReqInfo) (b : List Char)
        (rb : Option (List Char)) (rs : Option Nat) (now : Nat),
        st.logs.length ≤ MAX_LOGS →
        (saveRequestLog st req b rb rs now).1.logs.length ≤ MAX_LOGS) ∧
    (∀ n : Nat, (saveMany debugOnInit n).logs.map RequestLog.id =
        (List.range n).reverse.take MAX_LOGS) ∧
    (∀ n : Nat, MAX_LOGS ≤ n → (saveMany debugOnInit n).logs.length = MAX_LOGS) := by
  have hfifo : ∀ n : Nat, (saveMany debugOnInit n).logs.map RequestLog.id =
      (List.range n).reverse.take MAX_LOGS := by
    intro n
    induction n with
    | zero => rfl
    | succ n ih =>
      rw [saveMany,
        saveRequestLog_logs _ _ _ _ _ _ (saveMany_isDebugMode n), cap_eq_take,
        List.map_take, List.map_cons, mkEntry_id, saveMany_nextId, ih,
        take_cons_take, List.range_succ, List.reverse_append,
        List.reverse_singleton, List.singleton_append]
  refine ⟨?_, hfifo, ?_⟩
  · intro st req b rb rs now hlen
    cases hd : st.isDebugMode
    · rw [saveRequestLog_off st req b rb rs now hd]
      exact hlen
    · rw [saveRequestLog_logs st req b rb rs now hd, cap_eq_take,
        List.length_take]
      omega
  · intro n hn
    have h1 := congrArg List.length (hfifo n)
    rw [List.length_map, List.length_take, List.length_reverse,
      List.length_range] at h1
    omega

theorem logStore_bounded_fifo_witness :
    initState.logs.length ≤ MAX_LOGS ∧
    (saveRequestLog initState sampleReq "hi".toList none none 0).1.logs.length
      ≤ MAX_LOGS ∧
    MAX_LOGS ≤ 105 ∧
    (saveMany debugOnInit 105).logs.length = MAX_LOGS :=
  ⟨by decide,
   logStore_bounded_fifo.1 initState sampleReq "hi".toList none none 0 (by decide),
   by decide,
   logStore_bounded_fifo.2.2 105 (by decide)⟩

/-- The state after `/api/proxy/target` accepts `https://example.com`. -/
def c3State : ProxyState :=
  (handleProxyTargetUpdate initState "POST"
    (some { url := some "https://example.com", targetUrl := none })).1

/-- A plain proxied request to `/v1/x?k=1`. -/
def c3Req : ReqInfo :=
  { method := "GET", url := "https://proxy.example/v1/x?k=1", path := "/v1/x",
    search := "?k=1", headers := [] }

/-- Claim C3 (code-bug evidence): the target-update endpoint accepts
`https://example.com` and records it as `state.targetUrl`, yet `handleProxy`
still computes its upstream URL from the constant `TARGET_URL`, so the
proxied call does not go to the controller's current target. -/
theorem proxy_ignores_updated_target :
    (handleProxyTargetUpdate initState "POST"
        (some { url := some "https://example.com", targetUrl := none })).2.1 = 200 ∧
    c3State.targetUrl = "https://example.com" ∧
    proxyUpstreamUrl c3State c3Req =
      "https://generativelanguage.googleapis.com/v1/x?k=1" ∧
    resolveUrl c3State.targetUrl (c3Req.path ++ c3Req.search) =
      "https://example.com/v1/x?k=1" ∧
    proxyUpstreamUrl c3State c3Req ≠
      resolveUrl c3State.targetUrl (c3Req.path ++ c3Req.search) := by
  decide

/-- Claim C5 (counterexample): a POST body whose `targetUrl` field holds a
valid absolute URL (and that has no `url` field) is answered 400 and leaves
the target unchanged — the handler destructures the body's `url` field, not
`targetUrl`, so the claim's acceptance condition is wrong. -/
theorem targetUpdate_targetUrl_field_rejected :
    isAbsoluteUrl "https://example.com/" = true ∧
    handleProxyTargetUpdate initState "POST"
      (some { url := none, targetUrl := some "https://example.com/" }) =
      (initState, 400, false) := by
  decide

/-- `true` when the state's KV handle is absent or not failing. -/
def kvNotFailing (st : ProxyState) : Bool :=
  match st.kv with
  | none => true
  | some kv => !kv.failing

/-- Claim C5 (amended): for a POST to `/api/proxy/target` (with a reachable
or absent KV store), a body whose `url` field is missing or does not parse
as an absolute URL is answered 400 with the state unchanged, while a body
whose `url` field parses as an absolute URL is accepted with 200 and updates
the current target to it. -/
theorem targetUpdate_url_validation (st : ProxyState) (b : TargetUpdateBody)
    (hkv : kvNotFailing st = true) :
    ((b.url = none ∨ ∃ u, b.url = some u ∧ isAbsoluteUrl u = false) →
      handleProxyTargetUpdate st "POST" (some b) = (st, 400, false)) ∧
    (∀ u, b.url = some u → isAbsoluteUrl u = true →
      (handleProxyTargetUpdate st "POST" (some b)).2.1 = 200 ∧
      (handleProxyTargetUpdate st "POST" (some b)).2.2 = true ∧
      (handleProxyTargetUpdate st "POST" (some b)).1.targetUrl = u) := by
  constructor
  · rintro (hn | ⟨u, hu, hv⟩)
    · simp [handleProxyTargetUpdate, hn]
    · simp [handleProxyTargetUpdate, hu, hv]
  · intro u hu hv
    cases hkvs : st.kv with
    | none => simp [handleProxyTargetUpdate, hu, hv, hkvs]
    | some kv =>
      have hf : kv.failing = false := by
        simp [kvNotFailing, hkvs] at hkv
        exact hkv
      simp [handleProxyTargetUpdate, hu, hv, hkvs, KVStore.set, hf]

theorem targetUpdate_url_validation_witness :
    kvNotFailing initState = true ∧
    handleProxyTargetUpdate initState "POST"
      (some { url := some "not a url", targetUrl := none }) =
      (initState, 400, false) ∧
    ((handleProxyTargetUpdate initState "POST"
        (some { url := some "https://example.org", targetUrl := none })).2.1 = 200 ∧
      (handleProxyTargetUpdate initState "POST"
        (some { url := some "https://example.org", targetUrl := none })).2.2 = true ∧
      (handleProxyTargetUpdate initState "POST"
        (some { url := some "https://example.org", targetUrl := none })).1.targetUrl =
        "https://example.org") :=
  ⟨by decide,
   (targetUpdate_url_validation initState
      { url := some "not a url", targetUrl := none } (by decide)).1
     (Or.inr ⟨"not a url", rfl, by decide⟩),
   (targetUpdate_url_validation initState
      { url := some "https://example.org", targetUrl := none } (by decide)).2
     "https://example.org" rfl (by decide)⟩

theorem find_filter_ne (l : List (KVKey × KVValue × Option Nat)) (k k' : KVKey)
    (hne : k' ≠ k) :
    (l.filter (fun e => decide (e.1 ≠ k))).find? (fun e => decide (e.1 = k')) =
      l.find? (fun e => decide (e.1 = k')) := by
  induction l with
  | nil => rfl
  | cons a as ih =>
    by_cases ha : a.1 = k
    · rw [List.filter_cons, if_neg (by simp [ha]), ih,
        List.find?_cons_of_neg _ (by simp [ha]; exact fun hk => hne hk.symm)]
    · rw [List.filter_cons, if_pos (by simp [ha])]
      by_cases hk' : a.1 = k'
      · rw [List.find?_cons_of_pos _ (by simp [hk']),
          List.find?_cons_of_pos _ (by simp [hk'])]
      · rw [List.find?_cons_of_neg _ (by simp [hk']),
          List.find?_cons_of_neg _ (by simp [hk']), ih]

theorem kvSet_ok (kv : KVStore) (k : KVKey) (v : KVValue) (e : Option Nat)
    (hf : kv.failing = false) :
    kv.set k v e = .ok
      { entries := (k, v, e) :: kv.entries.filter (fun x => decide (x.1 ≠ k)),
        failing := kv.failing } := by
  simp [KVStore.set, hf]

theorem kvSet_failing (kv kv' : KVStore) (k : KVKey) (v : KVValue)
    (e : Option Nat) (h : kv.set k v e = .ok kv') : kv'.failing = kv.failing := by
  cases hf : kv.failing
  · rw [kvSet_ok kv k v e hf] at h
    injection h with h2
    rw [← h2]
    exact hf
  · unfold KVStore.set at h
    rw [if_pos hf] at h
    exact Except.noConfusion h

theorem kvLookup_set_self (kv kv' : KVStore) (k : KVKey) (v : KVValue)
    (e : Option Nat) (h : kv.set k v e = .ok kv') :
    kv'.lookup k = some (v, e) := by
  cases hf : kv.failing
  · rw [kvSet_ok kv k v e hf] at h
    injection h with h2
    rw [← h2]
    simp [KVStore.lookup, List.find?_cons_of_pos]
  · unfold KVStore.set at h
    rw [if_pos hf] at h
    exact Except.noConfusion h

theorem kvLookup_set_other (kv kv' : KVStore) (k k' : KVKey) (v : KVValue)
    (e : Option Nat) (hne : k' ≠ k) (h : kv.set k v e = .ok kv') :
    kv'.lookup k' = kv.lookup k' := by
  cases hf : kv.failing
  · rw [kvSet_ok kv k v e hf] at h
    injection h with h2
    rw [← h2]
    unfold KVStore.lookup
    rw [List.find?_cons_of_neg _ (by simp; exact fun hk => hne hk.symm),
      find_filter_ne _ _ _ hne]
  · unfold KVStore.set at h
    rw [if_pos hf] at h
    exact Except.noConfusion h

theorem kvDel_ok (kv : KVStore) (k : KVKey) (hf : kv.failing = false) :
    kv.del k = .ok
      { entries := kv.entries.filter (fun x => decide (x.1 ≠ k)),
        failing := kv.failing } := by
  simp [KVStore.del, hf]

theorem kvDel_failing (kv kv' : KVStore) (k : KVKey)
    (h : kv.del k = .ok kv') : kv'.failing = kv.failing := by
  cases hf : kv.failing
  · rw [kvDel_ok kv k hf] at h
    injection h with h2
    rw [← h2]
    exact hf
  · unfold KVStore.del at h
    rw [if_pos hf] at h
    exact Except.noConfusion h

theorem kvLookup_del_self (kv kv' : KVStore) (k : KVKey)
    (h : kv.del k = .ok kv') : kv'.lookup k = none := by
  cases hf : kv.failing
  · rw [kvDel_ok kv k hf] at h
    injection h with h2
    rw [← h2]
    unfold KVStore.lookup
    rw [show (List.find? (fun e => decide (e.1 = k))
        (kv.entries.filter (fun x => decide (x.1 ≠ k)))) = none from ?_]
    · rfl
    · rw [List.find?_eq_none]
      intro x hx
      have hx2 := (List.mem_filter.mp hx).2
      simp at hx2 ⊢
      exact hx2
  · unfold KVStore.del at h
    rw [if_pos hf] at h
    exact Except.noConfusion h

theorem kvLookup_del_other (kv kv' : KVStore) (k k' : KVKey) (hne : k' ≠ k)
    (h : kv.del k = .ok kv') : kv'.lookup k' = kv.lookup k' := by
  cases hf : kv.failing
  · rw [kvDel_ok kv k hf] at h
    injection h with h2
    rw [← h2]
    unfold KVStore.lookup
    rw [find_filter_ne _ _ _ hne]
  · unfold KVStore.del at h
    rw [if_pos hf] at h
    exact Except.noConfusion h

theorem kvSaveLog_ok (kv : KVStore) (id : Nat) (entry : RequestLog) (now : Nat)
    (hf : kv.failing = false) :
    ∃ kv', kvSaveLog kv id entry now = .ok kv' ∧ kv'.failing = false ∧
      kv'.lookup (.logs id) =
        some (.log entry, some (now + LOG_EXPIRATION_MS)) ∧
      kv'.lookup .logIds =
        some (.ids (newIdsFor ((kv.lookup .logIds).map (fun v => v.1)) id),
          some (now + LOG_EXPIRATION_MS)) := by
  have hget : kv.get .logIds =
      .ok ((kv.lookup .logIds).map (fun v => v.1)) := by
    simp [KVStore.get, hf]
  have hset1 := kvSet_ok kv (.logs id) (.log entry)
    (some (now + LOG_EXPIRATION_MS)) hf
  set kv1 : KVStore :=
    { entries := (KVKey.logs id, KVValue.log entry,
        some (now + LOG_EXPIRATION_MS)) ::
        kv.entries.filter (fun x => decide (x.1 ≠ KVKey.logs id)),
      failing := kv.failing } with hkv1
  have hf1 : kv1.failing = false := hf
  obtain ⟨kv2, hset2⟩ : ∃ x, kv1.set .logIds
      (.ids (newIdsFor ((kv.lookup .logIds).map (fun v => v.1)) id))
      (some (now + LOG_EXPIRATION_MS)) = .ok x :=
    ⟨_, kvSet_ok kv1 _ _ _ hf1⟩
  refine ⟨kv2, ?_, ?_, ?_, ?_⟩
  · unfold kvSaveLog
    simp only [hget, hset1, hset2]
  · exact (kvSet_failing _ _ _ _ _ hset2).trans hf1
  · rw [kvLookup_set_other kv1 kv2 .logIds (.logs id) _ _ (by simp) hset2]
    exact kvLookup_set_self kv kv1 _ _ _ hset1
  · exact kvLookup_set_self kv1 kv2 _ _ _ hset2

/-- Claim C4 (counterexample): mirroring a log entry writes both keys with a
shared expiry of `now + 600000` ms — ten minutes, not 10–12 hours — so
saving at time 0 into an empty reachable store leaves both keys expiring at
600000, far below the 36000000 ms a ten-hour expiry would require. -/
theorem saveLog_expiry_not_hours :
    (match (saveRequestLog
        { debugOnInit with kv := some { entries := [], failing := false } }
        sampleReq "hello".toList none none 0).1.kv with
      | some kv' => kv'.lookup (.logs 0)
      | none => none) =
      some (.log (mkEntry
        { debugOnInit with kv := some { entries := [], failing := false } }
        sampleReq "hello".toList none none 0), some 600000) ∧
    (match (saveRequestLog
        { debugOnInit with kv := some { entries := [], failing := false } }
        sampleReq "hello".toList none none 0).1.kv with
      | some kv' => kv'.lookup .logIds
      | none => none) = some (.ids [0], some 600000) ∧
    ¬ (36000000 ≤ 600000 ∧ 600000 ≤ 43200000) := by
  decide

/-- Claim C4 (amended): whenever a log entry is mirrored to the external
store (debug on, KV configured and reachable), the per-entry key and the
id-list key are both written with one shared expiry timestamp,
`now + LOG_EXPIRATION_MS` — ten minutes in the future. -/
theorem saveLog_shared_expiry (st : ProxyState) (req : ReqInfo) (b : List Char)
    (rb : Option (List Char)) (rs : Option Nat) (now : Nat) (kv : KVStore)
    (hd : st.isDebugMode = true) (hkv : st.kv = some kv)
    (hf : kv.failing = false) :
    LOG_EXPIRATION_MS = 600000 ∧
    ∃ kv', (saveRequestLog st req b rb rs now).1.kv = some kv' ∧
      kv'.lookup (.logs st.nextId) =
        some (.log (mkEntry st req b rb rs now),
          some (now + LOG_EXPIRATION_MS)) ∧
      ∃ ids, kv'.lookup .logIds =
        some (.ids ids, some (now + LOG_EXPIRATION_MS)) := by
  refine ⟨rfl, ?_⟩
  obtain ⟨kv', hok, _, hlog, hids⟩ :=
    kvSaveLog_ok kv st.nextId (mkEntry st req b rb rs now) now hf
  refine ⟨kv', ?_, hlog, _, hids⟩
  simp only [saveRequestLog, hd, Bool.not_true, Bool.false_eq_true, if_false]
  simp [hkv, hok]

theorem saveLog_shared_expiry_witness :
    ({ debugOnInit with kv := some { entries := [], failing := false }
        : ProxyState }).isDebugMode = true ∧
    (LOG_EXPIRATION_MS = 600000 ∧
      ∃ kv', (saveRequestLog
          { debugOnInit with kv := some { entries := [], failing := false } }
          sampleReq "hello".toList none none 7).1.kv = some kv' ∧
        kv'.lookup (.logs ({ debugOnInit with
          kv := some { entries := [], failing := false } : ProxyState }).nextId) =
          some (.log (mkEntry
            { debugOnInit with kv := some { entries := [], failing := false } }
            sampleReq "hello".toList none none 7),
            some (7 + LOG_EXPIRATION_MS)) ∧
        ∃ ids, kv'.lookup .logIds =
          some (.ids ids, some (7 + LOG_EXPIRATION_MS))) :=
  ⟨by decide,
   saveLog_shared_expiry
     { debugOnInit with kv := some { entries := [], failing := false } }
     sampleReq "hello".toList none none 7
     { entries := [], failing := false } (by decide) rfl rfl⟩

/-- A concrete log entry. -/
def sampleLog : RequestLog :=
  { id := 3, timestamp := 5, method := "POST", url := "https://proxy.example/v1",
    path := "/v1", headers := [], body := "{}".toList, responseBody := none,
    responseStatus := some 200, clientIP := "unknown" }

/-- A configured KV store whose operations raise. -/
def failingStore : KVStore := { entries := [], failing := true }

/-- Debug on, one in-memory entry, KV configured but unreachable. -/
def c6State : ProxyState :=
  { initState with
    isDebugMode := true
    logs := [sampleLog]
    kv := some failingStore }

/-- Claim C6 (counterexample): with debug mode on and the external store
configured but failing, GET `/api/logs` answers the empty list, not the
(nonempty) in-memory sequence the claim promises on a store read failure. -/
theorem logsApi_failure_not_memory :
    handleLogsApiGet c6State = [] ∧ c6State.logs ≠ [] := by
  decide

/-- Claim C6 (amended): GET `/api/logs` returns the external store's view
exactly when debug mode is on and the store is configured — with a read
failure yielding the empty list, not the memory — and returns the in-memory
sequence when debug is off or the store is not configured. -/
theorem logsApi_source_selection (st : ProxyState) :
    (st.kv = none → handleLogsApiGet st = st.logs) ∧
    (st.isDebugMode = false → handleLogsApiGet st = st.logs) ∧
    (∀ kv, st.kv = some kv → st.isDebugMode = true →
      handleLogsApiGet st = getLogsFromKV st ∧
      (kv.failing = true → handleLogsApiGet st = [])) := by
  refine ⟨?_, ?_, ?_⟩
  · intro h
    simp [handleLogsApiGet, h]
  · intro h
    cases hkv : st.kv <;> simp [handleLogsApiGet, h, hkv]
  · intro kv hkv hd
    constructor
    · simp [handleLogsApiGet, hkv, hd]
    · intro hf
      simp [handleLogsApiGet, getLogsFromKV, kvGetLogs, KVStore.get, hkv, hd, hf]

theorem logsApi_source_selection_witness :
    c6State.kv = some failingStore ∧ c6State.isDebugMode = true ∧
    failingStore.failing = true ∧
    (handleLogsApiGet c6State = getLogsFromKV c6State ∧
      (failingStore.failing = true → handleLogsApiGet c6State = [])) :=
  ⟨rfl, rfl, rfl, (logsApi_source_selection c6State).2.2 failingStore rfl rfl⟩

theorem foldl_del_ok :
    ∀ (l : List Nat) (kv : KVStore), kv.failing = false →
      ∃ kv', l.foldlM (fun acc id => acc.del (.logs id)) kv = .ok kv' ∧
        kv'.failing = false ∧
        (∀ id ∈ l, kv'.lookup (.logs id) = none) ∧
        (∀ k, (∀ id ∈ l, k ≠ KVKey.logs id) → kv'.lookup k = kv.lookup k) := by
  intro l
  induction l with
  | nil =>
    intro kv hf
    exact ⟨kv, rfl, hf, by simp, fun k _ => rfl⟩
  | cons id ids ih =>
    intro kv hf
    obtain ⟨kvA, hdel⟩ : ∃ x, kv.del (.logs id) = .ok x :=
      ⟨_, kvDel_ok kv (.logs id) hf⟩
    have hfA : kvA.failing = false := (kvDel_failing _ _ _ hdel).trans hf
    obtain ⟨kv', hfold, hf', hnone, hother⟩ := ih kvA hfA
    refine ⟨kv', ?_, hf', ?_, ?_⟩
    · rw [List.foldlM_cons, hdel]
      exact hfold
    · intro id0 hid0
      rcases List.mem_cons.mp hid0 with h0 | h0
      · subst h0
        by_cases hin : id0 ∈ ids
        · exact hnone id0 hin
        · have hne : ∀ id' ∈ ids, KVKey.logs id0 ≠ KVKey.logs id' := by
            intro id' hid' heq
            injection heq with he
            exact hin (he ▸ hid')
          rw [hother _ hne]
          exact kvLookup_del_self kv kvA _ hdel
      · exact hnone id0 h0
    · intro k hk
      rw [hother k (fun id' h' => hk id' (List.mem_cons_of_mem _ h'))]
      exact kvLookup_del_other kv kvA _ k (hk id (List.mem_cons_self _ _)) hdel

theorem kvClearLogs_ok (kv : KVStore) (hf : kv.failing = false) :
    ∃ kv', kvClearLogs kv = .ok kv' ∧
      kv'.lookup .logIds = none ∧
      (∀ l e, kv.lookup .logIds = some (.ids l, e) →
        ∀ id ∈ l, kv'.lookup (.logs id) = none) := by
  have hget : kv.get .logIds =
      .ok ((kv.lookup .logIds).map (fun v => v.1)) := by
    simp [KVStore.get, hf]
  cases hLook : kv.lookup .logIds with
  | none =>
    obtain ⟨kvd, hdel2⟩ : ∃ x, kv.del .logIds = .ok x :=
      ⟨_, kvDel_ok kv .logIds hf⟩
    refine ⟨kvd, ?_, kvLookup_del_self kv kvd _ hdel2, ?_⟩
    · unfold kvClearLogs
      rw [hget, hLook]
      simp only [Option.map_none', hdel2]
    · intro l e h
      exact Option.noConfusion h
  | some ve =>
    obtain ⟨v, e⟩ := ve
    cases v with
    | ids l =>
      obtain ⟨kv2, hfold, hf2, hnone, hother⟩ := foldl_del_ok l kv hf
      obtain ⟨kvd, hdel2⟩ : ∃ x, kv2.del .logIds = .ok x :=
        ⟨_, kvDel_ok kv2 .logIds hf2⟩
      refine ⟨kvd, ?_, kvLookup_del_self kv2 kvd _ hdel2, ?_⟩
      · unfold kvClearLogs
        rw [hget, hLook]
        simp only [Option.map_some', hfold, hdel2]
      · intro l' e' h id hid
        injection h with h2
        injection h2 with h3
        injection h3 with h4
        rw [kvLookup_del_other kv2 kvd _ _ (by simp) hdel2]
        exact hnone id (by rw [h4]; exact hid)
    | log x =>
      obtain ⟨kvd, hdel2⟩ : ∃ x, kv.del .logIds = .ok x :=
        ⟨_, kvDel_ok kv .logIds hf⟩
      refine ⟨kvd, ?_, kvLookup_del_self kv kvd _ hdel2, ?_⟩
      · unfold kvClearLogs
        rw [hget, hLook]
        simp only [Option.map_some', hdel2]
      · intro l' e' h
        simp at h
    | debug a b =>
      obtain ⟨kvd, hdel2⟩ : ∃ x, kv.del .logIds = .ok x :=
        ⟨_, kvDel_ok kv .logIds hf⟩
      refine ⟨kvd, ?_, kvLookup_del_self kv kvd _ hdel2, ?_⟩
      · unfold kvClearLogs
        rw [hget, hLook]
        simp only [Option.map_some', hdel2]
      · intro l' e' h
        simp at h
    | config a b =>
      obtain ⟨kvd, hdel2⟩ : ∃ x, kv.del .logIds = .ok x :=
        ⟨_, kvDel_ok kv .logIds hf⟩
      refine ⟨kvd, ?_, kvLookup_del_self kv kvd _ hdel2, ?_⟩
      · unfold kvClearLogs
        rw [hget, hLook]
        simp only [Option.map_some', hdel2]
      · intro l' e' h
        simp at h

/-- Claim C7: DELETE `/api/logs` always empties the in-memory sequence,
even when the external deletion fails; with a reachable store it deletes
every external key named in the id list plus the id-list key itself; the
returned flag reports whether the external deletion succeeded (vacuously
true without a store), and failures surface only as that flag and the 500
status — never as an exception. -/
theorem clearLogs_correct (st : ProxyState) :
    (clearAllRequestLogs st).1.logs = [] ∧
    (clearAllRequestLogs st).2 = kvNotFailing st ∧
    (∀ kv, st.kv = some kv → kv.failing = false →
      ∃ kv', (clearAllRequestLogs st).1.kv = some kv' ∧
        kv'.lookup .logIds = none ∧
        (∀ l e, kv.lookup .logIds = some (.ids l, e) →
          ∀ id ∈ l, kv'.lookup (.logs id) = none)) ∧
    handleLogsApiDelete st =
      ((clearAllRequestLogs st).1,
        (if kvNotFailing st then 200 else 500), kvNotFailing st) := by
  have hmain : (clearAllRequestLogs st).1.logs = [] ∧
      (clearAllRequestLogs st).2 = kvNotFailing st := by
    cases hkv : st.kv with
    | none => simp [clearAllRequestLogs, kvNotFailing, hkv]
    | some kv =>
      cases hf : kv.failing
      · obtain ⟨kv', hok, _, _⟩ := kvClearLogs_ok kv hf
        simp [clearAllRequestLogs, kvNotFailing, hkv, hok, hf]
      · have herr : kvClearLogs kv = .error () := by
          unfold kvClearLogs
          rw [show kv.get .logIds = .error () from by simp [KVStore.get, hf]]
        simp [clearAllRequestLogs, kvNotFailing, hkv, herr, hf]
  refine ⟨hmain.1, hmain.2, ?_, ?_⟩
  · intro kv hkv hf
    obtain ⟨kv', hok, hids, hlogs⟩ := kvClearLogs_ok kv hf
    refine ⟨kv', ?_, hids, hlogs⟩
    simp [clearAllRequestLogs, hkv, hok]
  · rw [show handleLogsApiDelete st =
      ((clearAllRequestLogs st).1,
        (if (clearAllRequestLogs st).2 then 200 else 500),
        (clearAllRequestLogs st).2) from rfl, hmain.2]

/-- A reachable store holding an id list and two entries. -/
def c7Store : KVStore :=
  { entries := [(.logIds, .ids [3, 7], some 600000),
      (.logs 3, .log sampleLog, some 600000),
      (.logs 7, .log sampleLog, some 600000)],
    failing := false }

/-- Debug on, one in-memory entry, reachable KV store with stored logs. -/
def c7State : ProxyState :=
  { initState with
    isDebugMode := true
    logs := [sampleLog]
    kv := some c7Store }

theorem clearLogs_correct_witness :
    c7State.kv = some c7Store ∧ c7Store.failing = false ∧
    (∃ kv', (clearAllRequestLogs c7State).1.kv = some kv' ∧
      kv'.lookup .logIds = none ∧
      (∀ l e, c7Store.lookup .logIds = some (.ids l, e) →
        ∀ id ∈ l, kv'.lookup (.logs id) = none)) :=
  ⟨rfl, rfl, (clearLogs_correct c7State).2.2.1 c7Store rfl rfl⟩

/-- The externally-mirrored representation of the debug state: the value and
expiry stored under the `debugState` key. -/
def debugMirror (st : ProxyState) : Option (KVValue × Option Nat) :=
  match st.kv with
  | none => none
  | some kv => kv.lookup .debugState

/-- Two toggles in succession. -/
def toggleTwice (st : ProxyState) (now1 now2 : Nat) : Option ProxyState :=
  match handleDebugToggle st now1 with
  | none => none
  | some st1 => handleDebugToggle st1 now2

theorem toggle_off_on_nokv (st : ProxyState) (now : Nat)
    (hd : st.isDebugMode = false) (hkv : st.kv = none) :
    handleDebugToggle st now =
      some { st with isDebugMode := true, startTime := now } := by
  simp [handleDebugToggle, hd, hkv]

theorem toggle_on_off_nokv (st : ProxyState) (now : Nat)
    (hd : st.isDebugMode = true) (hkv : st.kv = none) :
    handleDebugToggle st now =
      some { st with isDebugMode := false, startTime := 0 } := by
  simp [handleDebugToggle, hd, hkv]

theorem toggle_off_on_kv (st : ProxyState) (now : Nat) (kv : KVStore)
    (hd : st.isDebugMode = false) (hkv : st.kv = some kv)
    (hf : kv.failing = false) :
    handleDebugToggle st now =
      some { st with
        isDebugMode := true
        startTime := now
        kv := some
          { entries := (KVKey.debugState, KVValue.debug true now,
              some (now + DEBUG_STATE_EXPIRATION_MS)) ::
              kv.entries.filter (fun x => decide (x.1 ≠ KVKey.debugState)),
            failing := kv.failing } } := by
  have hset := kvSet_ok kv .debugState (.debug true now)
    (some (now + DEBUG_STATE_EXPIRATION_MS)) hf
  simp [handleDebugToggle, hd, hkv, hset]

theorem toggle_on_off_kv (st : ProxyState) (now : Nat) (kv : KVStore)
    (hd : st.isDebugMode = true) (hkv : st.kv = some kv)
    (hf : kv.failing = false) :
    handleDebugToggle st now =
      some { st with
        isDebugMode := false
        startTime := 0
        kv := some
          { entries := (KVKey.debugState, KVValue.debug false 0,
              (none : Option Nat)) ::
              kv.entries.filter (fun x => decide (x.1 ≠ KVKey.debugState)),
            failing := kv.failing } } := by
  have hset := kvSet_ok kv .debugState (.debug false 0) none hf
  simp [handleDebugToggle, hd, hkv, hset]

/-- KV store of the C8 counterexample: mirror holds the enabled state. -/
def c8Store : KVStore :=
  { entries := [(.debugState, .debug true 5, some 99)], failing := false }

/-- Debug enabled since time 5, mirror matching. -/
def c8State : ProxyState :=
  { initState with
    isDebugMode := true
    startTime := 5
    kv := some c8Store }

/-- Claim C8 (counterexample): starting from the enabled state, two toggles
(at times 10 and 20) restore the enabled flag, but the externally-mirrored
representation changes — `{isDebugMode: true, startTime: 5}` with its old
expiry is replaced by `{isDebugMode: true, startTime: 20}` with a fresh
twelve-hour expiry — so the mirror is not returned to its pre-toggle
representation. -/
theorem toggle_twice_mirror_changes :
    (toggleTwice c8State 10 20).map ProxyState.isDebugMode =
      some c8State.isDebugMode ∧
    (toggleTwice c8State 10 20).map debugMirror ≠
      some (debugMirror c8State) := by
  decide

/-- Claim C8 (amended): with a reachable (or absent) KV store, toggling
debug mode twice always restores the enabled flag and the target URL; the
externally-mirrored representation is also restored provided the toggles
start from the disabled state with the mirror already holding the disabled
representation (`{isDebugMode: false, startTime: 0}`, no expiry) — starting
from the enabled state the mirror's startTime and expiry are rewritten. -/
theorem toggle_twice_restores (st : ProxyState) (now1 now2 : Nat)
    (hkv : kvNotFailing st = true) :
    ∃ st1 st2, handleDebugToggle st now1 = some st1 ∧
      handleDebugToggle st1 now2 = some st2 ∧
      st2.isDebugMode = st.isDebugMode ∧
      st2.targetUrl = st.targetUrl ∧
      ((st.isDebugMode = false ∧
          (∀ kv, st.kv = some kv →
            kv.lookup .debugState = some (.debug false 0, none))) →
        debugMirror st2 = debugMirror st) := by
  cases hkvs : st.kv with
  | none =>
    cases hd : st.isDebugMode
    · exact ⟨_, _, toggle_off_on_nokv st now1 hd hkvs,
        toggle_on_off_nokv _ now2 rfl hkvs,
        by simp [hd], by simp,
        fun _ => by simp [debugMirror, hkvs]⟩
    · exact ⟨_, _, toggle_on_off_nokv st now1 hd hkvs,
        toggle_off_on_nokv _ now2 rfl hkvs,
        by simp [hd], by simp,
        fun h => by simp [hd] at h⟩
  | some kv =>
    have hf : kv.failing = false := by
      simp [kvNotFailing, hkvs] at hkv
      exact hkv
    cases hd : st.isDebugMode
    · exact ⟨_, _, toggle_off_on_kv st now1 kv hd hkvs hf,
        toggle_on_off_kv _ now2 _ rfl rfl hf,
        by simp [hd], by simp,
        fun h => by
          have hm := h.2 kv rfl
          unfold KVStore.lookup at hm
          simp [debugMirror, hkvs, KVStore.lookup, hm]⟩
    · exact ⟨_, _, toggle_on_off_kv st now1 kv hd hkvs hf,
        toggle_off_on_kv _ now2 _ rfl rfl hf,
        by simp [hd], by simp,
        fun h => by simp [hd] at h⟩

theorem toggle_twice_restores_witness :
    kvNotFailing initState = true ∧
    (∃ st1 st2, handleDebugToggle initState 10 = some st1 ∧
      handleDebugToggle st1 20 = some st2 ∧
      st2.isDebugMode = initState.isDebugMode ∧
      st2.targetUrl = initState.targetUrl ∧
      ((initState.isDebugMode = false ∧
          (∀ kv, initState.kv = some kv →
            kv.lookup .debugState = some (.debug false 0, none))) →
        debugMirror st2 = debugMirror initState)) :=
  ⟨by decide, toggle_twice_restores initState 10 20 (by decide)⟩

/-- Claim C9: with debug mode disabled, proxying adds no log entry —
`saveRequestLog` is a no-op returning null, the capture path of
`handleProxy` leaves the whole state (in-memory logs and KV mirror)
unchanged, and a subsequent GET `/api/logs` returns exactly what it
returned before. -/
theorem debugOff_no_capture (st : ProxyState) (req : ReqInfo)
    (reqBody : List Char) (readReqOk : Bool) (respBody : List Char)
    (readRespOk : Bool) (respStatus : Nat) (now : Nat)
    (b : List Char) (rb : Option (List Char)) (rs : Option Nat) (now' : Nat)
    (hd : st.isDebugMode = false) :
    saveRequestLog st req b rb rs now' = (st, none) ∧
    handleProxyCapture st req reqBody readReqOk respBody readRespOk
      respStatus now = st ∧
    handleLogsApiGet (handleProxyCapture st req reqBody readReqOk respBody
      readRespOk respStatus now) = handleLogsApiGet st := by
  have h2 : handleProxyCapture st req reqBody readReqOk respBody readRespOk
      respStatus now = st := by
    simp [handleProxyCapture, hd]
  exact ⟨saveRequestLog_off st req b rb rs now' hd, h2, by rw [h2]⟩

theorem debugOff_no_capture_witness :
    initState.isDebugMode = false ∧
    (saveRequestLog initState sampleReq "b".toList none none 1 =
        (initState, none) ∧
      handleProxyCapture initState sampleReq "b".toList true "r".toList true
        200 1 = initState ∧
      handleLogsApiGet (handleProxyCapture initState sampleReq "b".toList true
        "r".toList true 200 1) = handleLogsApiGet initState) :=
  ⟨by decide,
   debugOff_no_capture initState sampleReq "b".toList true "r".toList true
     200 1 "b".toList none none 1 (by decide)⟩

/-- Claim C10: even with debug mode enabled, a proxied request whose
captured request body is empty — every GET or HEAD request, and any other
request with an empty body — is never saved to the log store: the save call
in `handleProxy` is guarded on a non-empty captured request body, so the
state is unchanged and `/api/logs` gains no entry. -/
theorem emptyBody_not_saved (st : ProxyState) (req : ReqInfo)
    (reqBody : List Char) (readReqOk : Bool) (respBody : List Char)
    (readRespOk : Bool) (respStatus : Nat) (now : Nat)
    (hd : st.isDebugMode = true)
    (h : req.method = "GET" ∨ req.method = "HEAD" ∨ reqBody = []) :
    handleProxyCapture st req reqBody readReqOk respBody readRespOk
      respStatus now = st := by
  unfold handleProxyCapture
  rcases h with h | h | h
  · simp [h]
  · simp [h]
  · simp [h]

/-- A GET request to `/v1`. -/
def c10Req : ReqInfo :=
  { method := "GET", url := "https://proxy.example/v1", path := "/v1",
    search := "", headers := [] }

theorem emptyBody_not_saved_witness :
    debugOnInit.isDebugMode = true ∧
    handleProxyCapture debugOnInit c10Req "ignored".toList true "resp".toList
      true 200 3 = debugOnInit :=
  ⟨by decide,
   emptyBody_not_saved debugOnInit c10Req "ignored".toList true "resp".toList
     true 200 3 (by decide) (Or.inl rfl)⟩
